import Mathlib

/-!
Verification of the tail-tagger asynchronous classifier subsystem.

This file shallowly embeds the parts of the repository that the spec talks
about and proves (or refutes) the spec sentences about them:

* the loading state machine of ClassifierManager (classifier_manager.py),
* the score postprocessing of AnalysisWorker (classifier_manager.py),
* the JTP3 resolution selection and patchify (inference/jtp3_inference.py),
* the HydraPool query cache and output stage (inference/jtp3_inference.py),
* the JTP2 Fit transform and vocabulary loading (transformations.py,
  inference/jtp2_inference.py).

Machine floats are modelled as exact rationals or reals; the properties
proved below only depend on ordering and exact branch structure.
-/

namespace TailTagger

/-! ## ClassifierManager state machine (classifier_manager.py)

State fields mirror the attributes of ClassifierManager that the loading
state machine reads and writes.  The loaded model object, the tag list and
the torch device are abstracted to opaque handles; a field is none exactly
when the corresponding attribute is None in Python.  pathsSet stands for
model_path and tags_path both being set.  Filesystem reads during
preprocessing are assumed to succeed (image decoding is outside the claims).
-/

structure MgrState where
  model : Option Nat
  allowedTags : Option (List String)
  device : Option Nat
  isLoading : Bool
  pendingAnalysisPath : Option String
  pathsSet : Bool
  deriving Repr, DecidableEq

/-- Observable actions of the manager: dispatching a LoadModelWorker,
dispatching an AnalysisWorker for a path, emitting analysis_started and
emitting error_occurred. -/
inductive MgrEvent where
  | loadDispatched
  | analysisDispatched (path : String)
  | started
  | errored (msg : String)
  deriving Repr, DecidableEq

/-- ClassifierManager._ensure_loaded: returns the new state, the emitted
events and whether the model is ready now. -/
def ensureLoaded (s : MgrState) : MgrState × List MgrEvent × Bool :=
  if s.model.isSome ∧ s.allowedTags.isSome then
    (s, [], true)
  else if s.isLoading then
    (s, [], false)
  else if ¬ s.pathsSet then
    (s, [.errored ("Internal error: Active model paths not set.")], false)
  else
    ({ s with isLoading := true }, [.loadDispatched], false)

/-- ClassifierManager.request_analysis.  On the ready path the preprocessing
of the image is assumed to succeed and the worker dispatch is recorded as an
analysisDispatched event, preceded by the analysis_started emission exactly
as in the source. -/
def requestAnalysis (s : MgrState) (path : String) : MgrState × List MgrEvent :=
  let r := ensureLoaded s
  let s1 := r.1
  let evs := r.2.1
  let ready := r.2.2
  if ¬ ready then
    if s1.isLoading then
      ({ s1 with pendingAnalysisPath := some path }, evs)
    else
      (s1, evs ++ [.errored ("Model failed to load previously.")])
  else
    let s2 := { s1 with pendingAnalysisPath := none }
    match s2.device with
    | none => (s2, evs ++ [.errored ("Cannot analyze, device not set after model load.")])
    | some _ => (s2, evs ++ [.started, .analysisDispatched path])

/-- ClassifierManager._handle_model_loaded: store the loaded model, tags and
its device, clear the loading flag, and if a pending path exists clear it
and re-invoke request_analysis for it. -/
def handleModelLoaded (s : MgrState) (m d : Nat) (tags : List String) :
    MgrState × List MgrEvent :=
  let s1 := { s with model := some m, allowedTags := some tags,
                     device := some d, isLoading := false }
  match s1.pendingAnalysisPath with
  | some p =>
      let s2 := { s1 with pendingAnalysisPath := none }
      requestAnalysis s2 p
  | none => (s1, [])

/-- ClassifierManager._handle_loading_error: clear model, tags, loading flag
and pending path, emit the error.  Note the source does not touch
self.device here; the device field is left unchanged. -/
def handleLoadingError (s : MgrState) (msg : String) : MgrState × List MgrEvent :=
  ({ s with model := none, allowedTags := none, isLoading := false,
            pendingAnalysisPath := none },
   [.errored ("Model loading failed: " ++ msg)])

/-- Manager state right after construction with valid discovered model
paths: nothing loaded, not loading, no pending path. -/
def initMgr : MgrState :=
  { model := none, allowedTags := none, device := none,
    isLoading := false, pendingAnalysisPath := none, pathsSet := true }

/-- Sequentially issue a list of request_analysis calls, concatenating the
emitted events. -/
def runRequests (s : MgrState) : List String → MgrState × List MgrEvent
  | [] => (s, [])
  | p :: rest =>
      let r := requestAnalysis s p
      let r2 := runRequests r.1 rest
      (r2.1, r.2 ++ r2.2)

/-- One full load cycle: a first request from the initial state (which
dispatches the load), further requests while loading, then the load
success callback. -/
def loadCycle (p0 : String) (ps : List String) (m d : Nat) (tags : List String) :
    MgrState × List MgrEvent :=
  let r1 := requestAnalysis initMgr p0
  let r2 := runRequests r1.1 ps
  let r3 := handleModelLoaded r2.1 m d tags
  (r3.1, r1.2 ++ r2.2 ++ r3.2)

/-- Paths of the analysisDispatched events in an event list. -/
def analysisPaths (evs : List MgrEvent) : List String :=
  evs.filterMap (fun e => match e with
    | .analysisDispatched p => some p
    | _ => none)

/-! Operations that can hit the manager: a request from the GUI, or one of
the two completion signals of a dispatched LoadModelWorker.  A worker signal
can only arrive while a load is in flight, which opGuard captures. -/

inductive MgrOp where
  | request (p : String)
  | loadOk (m d : Nat) (tags : List String)
  | loadErr (msg : String)

def stepOp (s : MgrState) : MgrOp → MgrState × List MgrEvent
  | .request p => requestAnalysis s p
  | .loadOk m d tags => handleModelLoaded s m d tags
  | .loadErr msg => handleLoadingError s msg

def opGuard (s : MgrState) : MgrOp → Prop
  | .request _ => True
  | .loadOk _ _ _ => s.isLoading = true
  | .loadErr _ => s.isLoading = true

def ValidOps (s : MgrState) : List MgrOp → Prop
  | [] => True
  | op :: rest => opGuard s op ∧ ValidOps (stepOp s op).1 rest

def runOps (s : MgrState) (ops : List MgrOp) : MgrState :=
  ops.foldl (fun acc op => (stepOp acc op).1) s

/-- Invariant of reachable manager states: model and tag list are set
together, the device is only set while a model is, and no load is in
flight while a model is loaded. -/
def MgrInv (s : MgrState) : Prop :=
  (s.model = none ↔ s.allowedTags = none) ∧
  (s.model = none → s.device = none) ∧
  (s.isLoading = true → s.model = none)

lemma mgrInv_init : MgrInv initMgr := by
  refine ⟨by simp [initMgr], by simp [initMgr], by simp [initMgr]⟩

lemma mgrInv_requestAnalysis (s : MgrState) (p : String) (h : MgrInv s) :
    MgrInv (requestAnalysis s p).1 := by
  obtain ⟨m, t, d, l, pend, ps⟩ := s
  obtain ⟨h1, h2, h3⟩ := h
  simp only [MgrInv] at *
  rcases m with _ | m <;> rcases t with _ | t <;> rcases d with _ | d <;>
    rcases l with _ | _ <;> rcases ps with _ | _ <;>
      simp_all [requestAnalysis, ensureLoaded]

lemma mgrInv_handleModelLoaded (s : MgrState) (m d : Nat) (tags : List String)
    (h : MgrInv s) : MgrInv (handleModelLoaded s m d tags).1 := by
  obtain ⟨m0, t0, d0, l0, pend, ps⟩ := s
  rcases pend with _ | p
  · exact ⟨by simp [handleModelLoaded], by simp [handleModelLoaded],
      by simp [handleModelLoaded]⟩
  · exact mgrInv_requestAnalysis
      ⟨some m, some tags, some d, false, none, ps⟩ p
      ⟨by simp, by simp, by simp⟩

lemma mgrInv_handleLoadingError (s : MgrState) (msg : String)
    (h : MgrInv s) (hl : s.isLoading = true) :
    MgrInv (handleLoadingError s msg).1 := by
  obtain ⟨h1, h2, h3⟩ := h
  have hd : s.device = none := h2 (h3 hl)
  exact ⟨by simp [handleLoadingError], by simp [handleLoadingError, hd],
    by simp [handleLoadingError]⟩

lemma mgrInv_runOps (ops : List MgrOp) (s : MgrState)
    (h : MgrInv s) (hv : ValidOps s ops) : MgrInv (runOps s ops) := by
  induction ops generalizing s with
  | nil => simpa [runOps] using h
  | cons op rest ih =>
      obtain ⟨hg, hv'⟩ := hv
      have hstep : MgrInv (stepOp s op).1 := by
        cases op with
        | request p => exact mgrInv_requestAnalysis s p h
        | loadOk m d tags => exact mgrInv_handleModelLoaded s m d tags h
        | loadErr msg => exact mgrInv_handleLoadingError s msg h hg
      have : runOps s (op :: rest) = runOps (stepOp s op).1 rest := by
        simp [runOps]
      rw [this]
      exact ih _ hstep hv'

/-! ## HydraPool query caching (inference/jtp3_inference.py)

The query tensor type is abstracted to a parameter.  normQ stands for the
qk_norm RMS normalization and rootsQ for the value the roots branch of
_forward_q computes out of the frozen cls/roots/clsroots/clscls parameters
(none of which _cache_query mutates).  qNormed mirrors _q_normed, an
Option Bool whose Python truthiness test in _cache_query succeeds only on
True. -/

structure HydraQState (α : Type) where
  q : α
  qNormed : Option Bool
  deriving Repr, DecidableEq

/-- HydraPool._forward_q. -/
def forwardQ {α : Type} (normQ : α → α) (rootsQ : α) (s : HydraQState α) : α :=
  match s.qNormed with
  | none => rootsQ
  | some false => normQ s.q
  | some true => s.q

/-- HydraPool._cache_query: overwrite q with the computed queries and set
the flag, unless the flag is already True. -/
def cacheQuery {α : Type} (normQ : α → α) (rootsQ : α) (s : HydraQState α) :
    HydraQState α :=
  if s.qNormed = some true then s
  else { s with q := forwardQ normQ rootsQ s, qNormed := some true }

/-- load_jtp3_model: the state dict override forces q_normed to True before
load_state_dict, so the head starts with the weight-file q and a true flag,
and _cache_query is invoked immediately afterwards, before any inference. -/
def loadJtp3Head {α : Type} (normQ : α → α) (rootsQ : α) (qFile : α) :
    HydraQState α :=
  cacheQuery normQ rootsQ { q := qFile, qNormed := some true }

/-! ### Lemmas about the loading phase -/

lemma foldl_some_getLastD : ∀ (ps : List String) (q : String),
    ps.foldl (fun _ r => some r) (some q) = some (ps.getLastD q)
  | [], _ => rfl
  | p :: rest, q => by
      rw [List.foldl_cons, List.getLastD_cons]
      exact foldl_some_getLastD rest p

lemma runRequests_loading (ps : List String) (pend : Option String) :
    runRequests (⟨none, none, none, true, pend, true⟩ : MgrState) ps =
      (⟨none, none, none, true, ps.foldl (fun _ q => some q) pend, true⟩, []) := by
  induction ps generalizing pend with
  | nil => rfl
  | cons p rest ih =>
      have h1 : requestAnalysis (⟨none, none, none, true, pend, true⟩ : MgrState) p
          = (⟨none, none, none, true, some p, true⟩, []) := by
        simp [requestAnalysis, ensureLoaded]
      simp [runRequests, h1, ih (some p)]

lemma requestAnalysis_init (p0 : String) :
    requestAnalysis initMgr p0 =
      (⟨none, none, none, true, some p0, true⟩, [.loadDispatched]) := by
  simp [requestAnalysis, ensureLoaded, initMgr]

lemma handleModelLoaded_pending (m d : Nat) (tags : List String) (lp : String) :
    handleModelLoaded ⟨none, none, none, true, some lp, true⟩ m d tags =
      (⟨some m, some tags, some d, false, none, true⟩,
       [.started, .analysisDispatched lp]) := by
  simp [handleModelLoaded, requestAnalysis, ensureLoaded]

/-- Claim C1: during a load cycle, no matter how many request_analysis calls
arrive while the manager is Loading, exactly one LoadModelWorker is
dispatched, each call overwrites the pending path so that right before the
load completes it holds the most recent path, and on load success exactly
that latest path is analyzed (one analysis dispatch, through the same
request_analysis code path). -/
theorem claim_C1_single_load_latest_path (p0 : String) (ps : List String)
    (m d : Nat) (tags : List String) :
    ((loadCycle p0 ps m d tags).2.count .loadDispatched = 1) ∧
    ((runRequests (requestAnalysis initMgr p0).1 ps).1.pendingAnalysisPath
        = some (ps.getLastD p0)) ∧
    (analysisPaths (loadCycle p0 ps m d tags).2 = [ps.getLastD p0]) ∧
    ((loadCycle p0 ps m d tags).1.pendingAnalysisPath = none) := by
  obtain ⟨lp, hlp⟩ : ∃ lp, ps.getLastD p0 = lp := ⟨_, rfl⟩
  rw [hlp]
  have h1 := requestAnalysis_init p0
  have h2 : runRequests (⟨none, none, none, true, some p0, true⟩ : MgrState) ps =
      (⟨none, none, none, true, some lp, true⟩, []) := by
    rw [runRequests_loading ps (some p0), foldl_some_getLastD ps p0, hlp]
  have h3 := handleModelLoaded_pending m d tags lp
  refine ⟨?_, ?_, ?_, ?_⟩
  · simp [loadCycle, h1, h2, h3, List.count_cons, List.count_append]
  · rw [h1, h2]
  · simp [loadCycle, h1, h2, h3, analysisPaths]
  · simp [loadCycle, h1, h2, h3]

/-- Claim C1 witness: a concrete load cycle with two competing requests. -/
theorem claim_C1_single_load_latest_path_witness :
    ((loadCycle ("a.png") [("b.png"), ("c.png")] 7 0 [("tag")]).2.count
        .loadDispatched = 1) ∧
    ((runRequests (requestAnalysis initMgr ("a.png")).1
        [("b.png"), ("c.png")]).1.pendingAnalysisPath = some ("c.png")) ∧
    (analysisPaths (loadCycle ("a.png") [("b.png"), ("c.png")] 7 0
        [("tag")]).2 = [("c.png")]) ∧
    ((loadCycle ("a.png") [("b.png"), ("c.png")] 7 0
        [("tag")]).1.pendingAnalysisPath = none) :=
  claim_C1_single_load_latest_path ("a.png") [("b.png"), ("c.png")] 7 0 [("tag")]

/-- Claim C7: after any valid sequence of manager operations that leaves a
load in flight, a load failure clears the model, the vocabulary, the pending
path, the loading flag, surfaces exactly one error event, and the device is
none afterwards (no half-loaded state observable). -/
theorem claim_C7_load_failure_resets (ops : List MgrOp) (msg : String)
    (hv : ValidOps initMgr ops)
    (hl : (runOps initMgr ops).isLoading = true) :
    ((handleLoadingError (runOps initMgr ops) msg).1.model = none) ∧
    ((handleLoadingError (runOps initMgr ops) msg).1.allowedTags = none) ∧
    ((handleLoadingError (runOps initMgr ops) msg).1.device = none) ∧
    ((handleLoadingError (runOps initMgr ops) msg).1.pendingAnalysisPath = none) ∧
    ((handleLoadingError (runOps initMgr ops) msg).1.isLoading = false) ∧
    ((handleLoadingError (runOps initMgr ops) msg).2
        = [.errored ("Model loading failed: " ++ msg)]) := by
  have hinv := mgrInv_runOps ops initMgr mgrInv_init hv
  obtain ⟨h1, h2, h3⟩ := hinv
  have hd : (runOps initMgr ops).device = none := h2 (h3 hl)
  simp [handleLoadingError, hd]

/-- Claim C7 witness: one request puts the manager in Loading, then the
load fails. -/
theorem claim_C7_load_failure_resets_witness :
    ValidOps initMgr [MgrOp.request ("img.png")] ∧
    (runOps initMgr [MgrOp.request ("img.png")]).isLoading = true ∧
    ((handleLoadingError (runOps initMgr [MgrOp.request ("img.png")])
        ("weights missing")).1.device = none) :=
  ⟨⟨trivial, trivial⟩, by decide,
    (claim_C7_load_failure_resets [MgrOp.request ("img.png")]
      ("weights missing") ⟨trivial, trivial⟩ (by decide)).2.2.1⟩

/-- Claim C9: caching the Hydra queries marks the flag true and stores
exactly the value _forward_q computes; a second _cache_query is the
identity; _forward_q on a cached head returns the cached buffer unchanged;
and the load path (which forces the flag true from the state dict before
calling _cache_query) leaves the weight-file queries in place. -/
theorem claim_C9_query_cache_idempotent {α : Type} (normQ : α → α)
    (rootsQ : α) (s : HydraQState α) (qFile : α) :
    ((cacheQuery normQ rootsQ s).qNormed = some true) ∧
    ((cacheQuery normQ rootsQ s).q = forwardQ normQ rootsQ s) ∧
    (cacheQuery normQ rootsQ (cacheQuery normQ rootsQ s)
        = cacheQuery normQ rootsQ s) ∧
    (forwardQ normQ rootsQ (cacheQuery normQ rootsQ s)
        = (cacheQuery normQ rootsQ s).q) ∧
    (loadJtp3Head normQ rootsQ qFile = ⟨qFile, some true⟩) := by
  by_cases h : s.qNormed = some true
  · refine ⟨by simp [cacheQuery, h], ?_, by simp [cacheQuery, h],
      by simp [cacheQuery, forwardQ, h], by simp [loadJtp3Head, cacheQuery]⟩
    simp [cacheQuery, forwardQ, h]
  · refine ⟨by simp [cacheQuery, h], by simp [cacheQuery, h], ?_, ?_,
      by simp [loadJtp3Head, cacheQuery]⟩
    · simp [cacheQuery, h]
    · simp [cacheQuery, forwardQ, h]

/-! ## Stable sorting (model of the Python list.sort / sorted builtins)

Python sorts are stable.  A stable sort by a key is modelled by tagging
every element with its position (List.enum), sorting by the lexicographic
order (key first, position second) and dropping the positions: this total
antisymmetric order has a unique sorted permutation, which is exactly the
stable result. -/

def keyLex {α β γ : Type} [LinearOrder β] [LinearOrder γ]
    (f : α → β) (g : α → γ) (p q : α) : Prop :=
  f p < f q ∨ (f p = f q ∧ g p ≤ g q)

instance {α β γ : Type} [LinearOrder β] [LinearOrder γ]
    (f : α → β) (g : α → γ) : DecidableRel (keyLex f g) := fun p q => by
  unfold keyLex
  infer_instance

instance {α β γ : Type} [LinearOrder β] [LinearOrder γ]
    (f : α → β) (g : α → γ) : IsTotal α (keyLex f g) := by
  constructor
  intro a b
  rcases lt_trichotomy (f a) (f b) with h | h | h
  · exact Or.inl (Or.inl h)
  · rcases le_total (g a) (g b) with h2 | h2
    · exact Or.inl (Or.inr ⟨h, h2⟩)
    · exact Or.inr (Or.inr ⟨h.symm, h2⟩)
  · exact Or.inr (Or.inl h)

instance {α β γ : Type} [LinearOrder β] [LinearOrder γ]
    (f : α → β) (g : α → γ) : IsTrans α (keyLex f g) := by
  constructor
  intro a b c hab hbc
  rcases hab with hab | ⟨hab, hab2⟩
  · rcases hbc with hbc | ⟨hbc, _⟩
    · exact Or.inl (hab.trans hbc)
    · exact Or.inl (hbc ▸ hab)
  · rcases hbc with hbc | ⟨hbc, hbc2⟩
    · exact Or.inl (hab ▸ hbc)
    · exact Or.inr ⟨hab.trans hbc, hab2.trans hbc2⟩

/-! ## Score postprocessing (AnalysisWorker.run, classifier_manager.py)

probs is the sigmoid probability vector (one score per vocabulary slot, in
vocabulary order), T the threshold.  The worker keeps the indices whose
probability is strictly above T, maps the in-range indices to (tag, score)
pairs, then sorts descending by score with reverse=True; Python in-place
sort is stable so equal scores keep vocabulary order. -/

def analysisCandidates {α : Type} [LinearOrder α]
    (allowedTags : List String) (probs : List α) (T : α) : List (String × α) :=
  probs.enum.filterMap (fun pi =>
    if T < pi.2 then
      if h : pi.1 < allowedTags.length then
        some (allowedTags.get ⟨pi.1, h⟩, pi.2)
      else none
    else none)

/-- The candidates tagged with their position, after the stable descending
sort by score (OrderDual turns the ascending lexicographic order into the
reverse=True sort of the source). -/
def postprocessIndexed {α : Type} [LinearOrder α]
    (allowedTags : List String) (probs : List α) (T : α) :
    List (Nat × (String × α)) :=
  (analysisCandidates allowedTags probs T).enum.insertionSort
    (keyLex (fun p => OrderDual.toDual p.2.2) Prod.fst)

/-- The final (tag, score) list emitted by AnalysisWorker.run. -/
def postprocessResults {α : Type} [LinearOrder α]
    (allowedTags : List String) (probs : List α) (T : α) : List (String × α) :=
  (postprocessIndexed allowedTags probs T).map Prod.snd

lemma mem_analysisCandidates {α : Type} [LinearOrder α]
    {allowedTags : List String} {probs : List α} {T : α} {r : String × α}
    (h : r ∈ analysisCandidates allowedTags probs T) : T < r.2 := by
  unfold analysisCandidates at h
  rw [List.mem_filterMap] at h
  obtain ⟨a, _, hf⟩ := h
  by_cases h1 : T < a.2
  · by_cases h2 : a.1 < allowedTags.length
    · rw [if_pos h1, dif_pos h2] at hf
      cases hf
      exact h1
    · rw [if_pos h1, dif_neg h2] at hf
      exact absurd hf (by simp)
  · rw [if_neg h1] at hf
    exact absurd hf (by simp)

lemma postprocessResults_perm {α : Type} [LinearOrder α]
    (allowedTags : List String) (probs : List α) (T : α) :
    (postprocessResults allowedTags probs T).Perm
      (analysisCandidates allowedTags probs T) := by
  unfold postprocessResults postprocessIndexed
  have h1 := List.perm_insertionSort
    (keyLex (fun p : Nat × (String × α) => OrderDual.toDual p.2.2) Prod.fst)
    (analysisCandidates allowedTags probs T).enum
  calc (((analysisCandidates allowedTags probs T).enum.insertionSort
          (keyLex (fun p => OrderDual.toDual p.2.2) Prod.fst)).map Prod.snd).Perm
        ((analysisCandidates allowedTags probs T).enum.map Prod.snd) := h1.map _
    _ = analysisCandidates allowedTags probs T :=
        List.enumFrom_map_snd 0 (analysisCandidates allowedTags probs T)

lemma postprocessIndexed_sorted {α : Type} [LinearOrder α]
    (allowedTags : List String) (probs : List α) (T : α) :
    List.Sorted (keyLex (fun p : Nat × (String × α) => OrderDual.toDual p.2.2)
      Prod.fst) (postprocessIndexed allowedTags probs T) :=
  List.sorted_insertionSort _ _

lemma postprocessIndexed_nodup_fst {α : Type} [LinearOrder α]
    (allowedTags : List String) (probs : List α) (T : α) :
    ((postprocessIndexed allowedTags probs T).map Prod.fst).Nodup := by
  have hperm := List.perm_insertionSort
    (keyLex (fun p : Nat × (String × α) => OrderDual.toDual p.2.2) Prod.fst)
    (analysisCandidates allowedTags probs T).enum
  exact ((hperm.map Prod.fst).nodup_iff).mpr
    (List.nodup_enum_map_fst _)

/-- Claim C2: every returned pair scores at least T (indeed strictly above),
the result is sorted descending by score, ties keep the candidate order
(whose positions come from the vocabulary order), the projection of the
indexed sort is the result, and the result is a permutation of the
thresholded candidate list. -/
theorem claim_C2_postprocess_threshold_sorted_stable {α : Type} [LinearOrder α]
    (allowedTags : List String) (probs : List α) (T : α) :
    (∀ r ∈ postprocessResults allowedTags probs T, T ≤ r.2) ∧
    List.Sorted (fun a b : String × α => b.2 ≤ a.2)
      (postprocessResults allowedTags probs T) ∧
    (postprocessIndexed allowedTags probs T).Pairwise
      (fun a b => a.2.2 = b.2.2 → a.1 < b.1) ∧
    (postprocessResults allowedTags probs T).Perm
      (analysisCandidates allowedTags probs T) := by
  have hperm := postprocessResults_perm allowedTags probs T
  have hsorted := postprocessIndexed_sorted allowedTags probs T
  refine ⟨?_, ?_, ?_, hperm⟩
  · intro r hr
    exact (mem_analysisCandidates (hperm.mem_iff.mp hr)).le
  · unfold postprocessResults
    have H : ∀ a b : Nat × (String × α),
        keyLex (fun p => OrderDual.toDual p.2.2) Prod.fst a b → b.2.2 ≤ a.2.2 := by
      intro a b hab
      rcases hab with hab | ⟨hab, _⟩
      · exact (OrderDual.toDual_lt_toDual.mp hab).le
      · exact (OrderDual.toDual_inj.mp hab).ge
    exact List.Pairwise.map Prod.snd H hsorted
  · have hn : (postprocessIndexed allowedTags probs T).Pairwise
        (fun a b => a.1 ≠ b.1) := by
      have := postprocessIndexed_nodup_fst allowedTags probs T
      rw [List.Nodup, List.pairwise_map] at this
      exact this
    refine (hsorted.and hn).imp ?_
    intro a b hab heq
    rcases hab.1 with h | ⟨_, hle⟩
    · exact absurd (OrderDual.toDual_lt_toDual.mp h) (by rw [heq]; exact lt_irrefl _)
    · exact lt_of_le_of_ne hle hab.2

/-- Claim C2 witness: a concrete vector with a tie, threshold one third. -/
theorem claim_C2_postprocess_witness :
    (∀ r ∈ postprocessResults [("a"), ("b"), ("c")]
        [(2 : ℚ)/3, 1/4, 2/3] (1/3), (1 : ℚ)/3 ≤ r.2) ∧
    List.Sorted (fun a b : String × ℚ => b.2 ≤ a.2)
      (postprocessResults [("a"), ("b"), ("c")] [(2 : ℚ)/3, 1/4, 2/3] (1/3)) ∧
    (postprocessIndexed [("a"), ("b"), ("c")] [(2 : ℚ)/3, 1/4, 2/3]
        (1/3)).Pairwise (fun a b => a.2.2 = b.2.2 → a.1 < b.1) ∧
    (postprocessResults [("a"), ("b"), ("c")] [(2 : ℚ)/3, 1/4, 2/3]
        (1/3)).Perm
      (analysisCandidates [("a"), ("b"), ("c")] [(2 : ℚ)/3, 1/4, 2/3] (1/3)) :=
  claim_C2_postprocess_threshold_sorted_stable [("a"), ("b"), ("c")]
    [(2 : ℚ)/3, 1/4, 2/3] (1/3)

/-! ## JTP2 vocabulary loading (load_jtp2_model, inference/jtp2_inference.py)

entries models the items() of the tags.json name-to-index dictionary, in
JSON key order.  The source sorts the items by index value with the stable
Python sorted and keeps the names. -/

def jtp2SortedEntries (entries : List (String × Nat)) : List (String × Nat) :=
  (entries.enum.insertionSort
    (keyLex (fun p : Nat × (String × Nat) => p.2.2) Prod.fst)).map Prod.snd

/-- The allowed_tags list computed by load_jtp2_model. -/
def loadJtp2Vocab (entries : List (String × Nat)) : List String :=
  (jtp2SortedEntries entries).map Prod.fst

lemma jtp2SortedEntries_perm (entries : List (String × Nat)) :
    (jtp2SortedEntries entries).Perm entries := by
  unfold jtp2SortedEntries
  have h1 := List.perm_insertionSort
    (keyLex (fun p : Nat × (String × Nat) => p.2.2) Prod.fst) entries.enum
  calc ((entries.enum.insertionSort
          (keyLex (fun p : Nat × (String × Nat) => p.2.2) Prod.fst)).map
            Prod.snd).Perm (entries.enum.map Prod.snd) := h1.map _
    _ = entries := List.enumFrom_map_snd 0 entries

lemma jtp2SortedEntries_map_snd (entries : List (String × Nat)) (n : Nat)
    (hperm : (entries.map Prod.snd).Perm (List.range n)) :
    (jtp2SortedEntries entries).map Prod.snd = List.range n := by
  have hsorted : List.Sorted (fun a b : Nat × (String × Nat) =>
      keyLex (fun p : Nat × (String × Nat) => p.2.2) Prod.fst a b)
      (entries.enum.insertionSort
        (keyLex (fun p : Nat × (String × Nat) => p.2.2) Prod.fst)) :=
    List.sorted_insertionSort _ _
  have hsnd : List.Sorted (fun a b : Nat => a ≤ b)
      ((jtp2SortedEntries entries).map Prod.snd) := by
    unfold jtp2SortedEntries
    rw [List.map_map]
    have H : ∀ a b : Nat × (String × Nat),
        keyLex (fun p : Nat × (String × Nat) => p.2.2) Prod.fst a b →
          (Prod.snd ∘ Prod.snd) a ≤ (Prod.snd ∘ Prod.snd) b := by
      intro a b hab
      rcases hab with hab | ⟨hab, _⟩
      · exact hab.le
      · exact hab.le
    exact List.Pairwise.map _ H hsorted
  refine List.eq_of_perm_of_sorted ?_ hsnd (List.sorted_le_range n)
  exact ((jtp2SortedEntries_perm entries).map Prod.snd).trans hperm

lemma jtp2SortedEntries_sorted_lt (entries : List (String × Nat)) (n : Nat)
    (hperm : (entries.map Prod.snd).Perm (List.range n)) :
    (jtp2SortedEntries entries).Pairwise (fun a b => a.2 < b.2) := by
  have h := jtp2SortedEntries_map_snd entries n hperm
  have h2 : List.Pairwise (fun a b : Nat => a < b)
      ((jtp2SortedEntries entries).map Prod.snd) := by
    rw [h]
    exact List.sorted_lt_range n
  rw [List.pairwise_map] at h2
  exact h2

/-- Claim C10: when the tags.json values are exactly the indices below n,
the vocabulary has length n, the tag at position i is the name mapped to i
(stated for every entry of the dictionary), and the result does not depend
on the JSON key order. -/
theorem claim_C10_vocab_aligned_with_indices (entries : List (String × Nat))
    (n : Nat) (hperm : (entries.map Prod.snd).Perm (List.range n)) :
    ((loadJtp2Vocab entries).length = n) ∧
    (∀ p ∈ entries, (loadJtp2Vocab entries)[p.2]? = some p.1) ∧
    (∀ entries2 : List (String × Nat), entries2.Perm entries →
        loadJtp2Vocab entries2 = loadJtp2Vocab entries) := by
  have hsnd := jtp2SortedEntries_map_snd entries n hperm
  have hlen : (jtp2SortedEntries entries).length = n := by
    have := congrArg List.length hsnd
    simpa using this
  refine ⟨by simp [loadJtp2Vocab, hlen], ?_, ?_⟩
  · intro p hp
    have hmem : p ∈ jtp2SortedEntries entries :=
      (jtp2SortedEntries_perm entries).mem_iff.mpr hp
    obtain ⟨i, hget⟩ := List.mem_iff_get.mp hmem
    have hget' : (jtp2SortedEntries entries)[i.val]? = some p := by
      rw [List.getElem?_eq_getElem i.isLt]
      exact congrArg some (by simpa [List.get_eq_getElem] using hget)
    have h1 : ((jtp2SortedEntries entries).map Prod.snd)[i.val]? = some p.2 := by
      rw [List.getElem?_map, hget']
      rfl
    rw [hsnd] at h1
    have hin : i.val < n := hlen ▸ i.isLt
    have h2 : (List.range n)[i.val]? = some i.val := by
      simp [hin]
    have hidx : p.2 = i.val := by
      rw [h1] at h2
      exact Option.some_inj.mp h2
    rw [loadJtp2Vocab, hidx, List.getElem?_map, hget']
    rfl
  · intro entries2 hp2
    have hperm2 : (entries2.map Prod.snd).Perm (List.range n) :=
      (hp2.map Prod.snd).trans hperm
    have heq : jtp2SortedEntries entries2 = jtp2SortedEntries entries := by
      haveI : IsAntisymm (String × Nat) (fun a b => a.2 < b.2) :=
        ⟨fun a b h1 h2 => absurd (h1.trans h2) (lt_irrefl _)⟩
      refine List.eq_of_perm_of_sorted ?_
        (jtp2SortedEntries_sorted_lt entries2 n hperm2)
        (jtp2SortedEntries_sorted_lt entries n hperm)
      exact ((jtp2SortedEntries_perm entries2).trans hp2).trans
        (jtp2SortedEntries_perm entries).symm
    rw [loadJtp2Vocab, loadJtp2Vocab, heq]

/-- Claim C10 witness: a two-entry dictionary given in reverse key order. -/
theorem claim_C10_vocab_aligned_witness :
    ((loadJtp2Vocab [(("b"), 1), (("a"), 0)]).length = 2) ∧
    (∀ p ∈ [(("b"), 1), (("a"), 0)],
        (loadJtp2Vocab [(("b"), 1), (("a"), 0)])[p.2]? = some p.1) ∧
    (∀ entries2 : List (String × Nat),
        entries2.Perm [(("b"), 1), (("a"), 0)] →
        loadJtp2Vocab entries2 = loadJtp2Vocab [(("b"), 1), (("a"), 0)]) :=
  claim_C10_vocab_aligned_with_indices [(("b"), 1), (("a"), 0)] 2 (by decide)

/-! ## JTP3 resolution selection (get_image_size_for_seq, jtp3_inference.py)

The float scale arithmetic is modelled exactly over the rationals.  The
callers in this repository use the default max_ratio = 1.0 and eps = 1e-5,
which are fixed here.  max_py and max_px are int(max((h * 1.0) // P, 1)). -/

def gisEps : ℚ := 1 / 100000

/-- The patchify closure: grid dimensions at a given scale, clamped. -/
def gisPatchify (h w P maxPy maxPx : Nat) (r : ℚ) : Nat × Nat :=
  (min (Int.toNat ⌈((h : ℚ) * r) / (P : ℚ)⌉) maxPy,
   min (Int.toNat ⌈((w : ℚ) * r) / (P : ℚ)⌉) maxPx)

def gisMaxPy (h P : Nat) : Nat := max (h / P) 1

/-- State of the binary search loop: the locals ratio, max_ratio, py, px. -/
structure GisOut where
  lo : ℚ
  hi : ℚ
  py : Nat
  px : Nat
  deriving Repr, DecidableEq

/-- The while loop of get_image_size_for_seq.  The fuel argument only bounds
the iteration count; 64 iterations are far more than the at most 17 the
eps-width exit condition allows, as the tightness lemma below shows. -/
def gisLoop (h w P N maxPy maxPx : Nat) : Nat → ℚ → ℚ → Nat → Nat → GisOut
  | 0, lo, hi, py, px => ⟨lo, hi, py, px⟩
  | fuel + 1, lo, hi, py, px =>
    if gisEps ≤ hi - lo then
      if N < (gisPatchify h w P maxPy maxPx ((lo + hi) / 2)).1 *
          (gisPatchify h w P maxPy maxPx ((lo + hi) / 2)).2 then
        gisLoop h w P N maxPy maxPx fuel lo ((lo + hi) / 2) py px
      else if (gisPatchify h w P maxPy maxPx ((lo + hi) / 2)).1 *
          (gisPatchify h w P maxPy maxPx ((lo + hi) / 2)).2 = N then
        ⟨(lo + hi) / 2, hi, (gisPatchify h w P maxPy maxPx ((lo + hi) / 2)).1,
         (gisPatchify h w P maxPy maxPx ((lo + hi) / 2)).2⟩
      else
        gisLoop h w P N maxPy maxPx fuel ((lo + hi) / 2) hi
          (gisPatchify h w P maxPy maxPx ((lo + hi) / 2)).1
          (gisPatchify h w P maxPy maxPx ((lo + hi) / 2)).2
    else ⟨lo, hi, py, px⟩

/-- get_image_size_for_seq with the default max_ratio = 1.0 and eps = 1e-5. -/
def getImageSizeForSeq (h w P N : Nat) : Except String (Nat × Nat) :=
  if gisMaxPy h P * gisMaxPy w P ≤ N then
    Except.ok (gisMaxPy h P * P, gisMaxPy w P * P)
  else
    if N < (gisPatchify h w P (gisMaxPy h P) (gisMaxPy w P) gisEps).1 *
        (gisPatchify h w P (gisMaxPy h P) (gisMaxPy w P) gisEps).2 then
      Except.error ("Image is too large.")
    else
      Except.ok
        ((gisLoop h w P N (gisMaxPy h P) (gisMaxPy w P) 64 gisEps 1
          (gisPatchify h w P (gisMaxPy h P) (gisMaxPy w P) gisEps).1
          (gisPatchify h w P (gisMaxPy h P) (gisMaxPy w P) gisEps).2).py * P,
         (gisLoop h w P N (gisMaxPy h P) (gisMaxPy w P) 64 gisEps 1
          (gisPatchify h w P (gisMaxPy h P) (gisMaxPy w P) gisEps).1
          (gisPatchify h w P (gisMaxPy h P) (gisMaxPy w P) gisEps).2).px * P)

/-- Patch grid area at scale r (with the clamps of the source). -/
def gisArea (h w P : Nat) (r : ℚ) : Nat :=
  (gisPatchify h w P (gisMaxPy h P) (gisMaxPy w P) r).1 *
    (gisPatchify h w P (gisMaxPy h P) (gisMaxPy w P) r).2

lemma gisLoop_succ (h w P N maxPy maxPx fuel : Nat) (lo hi : ℚ) (py px : Nat) :
    gisLoop h w P N maxPy maxPx (fuel + 1) lo hi py px =
      if gisEps ≤ hi - lo then
        if N < (gisPatchify h w P maxPy maxPx ((lo + hi) / 2)).1 *
            (gisPatchify h w P maxPy maxPx ((lo + hi) / 2)).2 then
          gisLoop h w P N maxPy maxPx fuel lo ((lo + hi) / 2) py px
        else if (gisPatchify h w P maxPy maxPx ((lo + hi) / 2)).1 *
            (gisPatchify h w P maxPy maxPx ((lo + hi) / 2)).2 = N then
          ⟨(lo + hi) / 2, hi, (gisPatchify h w P maxPy maxPx ((lo + hi) / 2)).1,
           (gisPatchify h w P maxPy maxPx ((lo + hi) / 2)).2⟩
        else
          gisLoop h w P N maxPy maxPx fuel ((lo + hi) / 2) hi
            (gisPatchify h w P maxPy maxPx ((lo + hi) / 2)).1
            (gisPatchify h w P maxPy maxPx ((lo + hi) / 2)).2
      else ⟨lo, hi, py, px⟩ := rfl

lemma gisPatchify_eval (h w P maxPy maxPx : Nat) (r : ℚ) (a b : Nat)
    (ha1 : (a : ℚ) - 1 < (h : ℚ) * r / (P : ℚ))
    (ha2 : (h : ℚ) * r / (P : ℚ) ≤ (a : ℚ))
    (hb1 : (b : ℚ) - 1 < (w : ℚ) * r / (P : ℚ))
    (hb2 : (w : ℚ) * r / (P : ℚ) ≤ (b : ℚ)) :
    gisPatchify h w P maxPy maxPx r = (min a maxPy, min b maxPx) := by
  unfold gisPatchify
  have h1 : ⌈(h : ℚ) * r / (P : ℚ)⌉ = (a : ℤ) :=
    Int.ceil_eq_iff.mpr ⟨by exact_mod_cast ha1, by exact_mod_cast ha2⟩
  have h2 : ⌈(w : ℚ) * r / (P : ℚ)⌉ = (b : ℤ) :=
    Int.ceil_eq_iff.mpr ⟨by exact_mod_cast hb1, by exact_mod_cast hb2⟩
  rw [h1, h2, Int.toNat_natCast, Int.toNat_natCast]

lemma gis_eval_16 : getImageSizeForSeq 16 16 16 1024 = Except.ok (16, 16) := by
  norm_num [getImageSizeForSeq, gisMaxPy]

lemma gis_patch_1600_eps :
    gisPatchify 1600 1600 16 100 100 gisEps = (1, 1) := by
  have := gisPatchify_eval 1600 1600 16 100 100 gisEps 1 1
    (by norm_num [gisEps]) (by norm_num [gisEps])
    (by norm_num [gisEps]) (by norm_num [gisEps])
  simpa using this

lemma gis_patch_1600_m1 :
    gisPatchify 1600 1600 16 100 100 (100001 / 200000) = (51, 51) := by
  have := gisPatchify_eval 1600 1600 16 100 100 (100001 / 200000) 51 51
    (by norm_num) (by norm_num) (by norm_num) (by norm_num)
  simpa using this

lemma gis_patch_1600_m2 :
    gisPatchify 1600 1600 16 100 100 (100003 / 400000) = (26, 26) := by
  have := gisPatchify_eval 1600 1600 16 100 100 (100003 / 400000) 26 26
    (by norm_num) (by norm_num) (by norm_num) (by norm_num)
  simpa using this

lemma gis_patch_1600_m3 :
    gisPatchify 1600 1600 16 100 100 (300005 / 800000) = (38, 38) := by
  have := gisPatchify_eval 1600 1600 16 100 100 (300005 / 800000) 38 38
    (by norm_num) (by norm_num) (by norm_num) (by norm_num)
  simpa using this

lemma gis_patch_1600_m4 :
    gisPatchify 1600 1600 16 100 100 (500011 / 1600000) = (32, 32) := by
  have := gisPatchify_eval 1600 1600 16 100 100 (500011 / 1600000) 32 32
    (by norm_num) (by norm_num) (by norm_num) (by norm_num)
  simpa using this

lemma gis_loop_1600 :
    gisLoop 1600 1600 16 1024 100 100 64 gisEps 1 1 1 =
      ⟨500011 / 1600000, 300005 / 800000, 32, 32⟩ := by
  rw [show (64 : Nat) = 63 + 1 from rfl, gisLoop_succ,
    if_pos (show gisEps ≤ 1 - gisEps by norm_num [gisEps]),
    show ((gisEps + 1) / 2 : ℚ) = 100001 / 200000 from by norm_num [gisEps],
    gis_patch_1600_m1, if_pos (by norm_num)]
  rw [show (63 : Nat) = 62 + 1 from rfl, gisLoop_succ,
    if_pos (show gisEps ≤ 100001 / 200000 - gisEps by norm_num [gisEps]),
    show ((gisEps + 100001 / 200000) / 2 : ℚ) = 100003 / 400000 from by
      norm_num [gisEps],
    gis_patch_1600_m2, if_neg (by norm_num), if_neg (by norm_num)]
  rw [show (62 : Nat) = 61 + 1 from rfl, gisLoop_succ,
    if_pos (show gisEps ≤ 100001 / 200000 - 100003 / 400000 by norm_num [gisEps]),
    show ((100003 / 400000 + 100001 / 200000) / 2 : ℚ) = 300005 / 800000 from by
      norm_num,
    gis_patch_1600_m3, if_pos (by norm_num)]
  rw [show (61 : Nat) = 60 + 1 from rfl, gisLoop_succ,
    if_pos (show gisEps ≤ 300005 / 800000 - 100003 / 400000 by norm_num [gisEps]),
    show ((100003 / 400000 + 300005 / 800000) / 2 : ℚ) = 500011 / 1600000 from by
      norm_num,
    gis_patch_1600_m4, if_neg (by norm_num), if_pos (by norm_num)]

lemma gisCeilDiv_mono (h P : Nat) {r1 r2 : ℚ} (hr : r1 ≤ r2) :
    ⌈(h : ℚ) * r1 / (P : ℚ)⌉ ≤ ⌈(h : ℚ) * r2 / (P : ℚ)⌉ := by
  apply Int.ceil_le_ceil
  exact div_le_div_of_nonneg_right
    (mul_le_mul_of_nonneg_left hr (Nat.cast_nonneg h)) (Nat.cast_nonneg P)

lemma gisPatchify_mono (h w P maxPy maxPx : Nat) {r1 r2 : ℚ} (hr : r1 ≤ r2) :
    (gisPatchify h w P maxPy maxPx r1).1 ≤ (gisPatchify h w P maxPy maxPx r2).1 ∧
    (gisPatchify h w P maxPy maxPx r1).2 ≤ (gisPatchify h w P maxPy maxPx r2).2 := by
  constructor
  · exact min_le_min (Int.toNat_le_toNat (gisCeilDiv_mono h P hr)) le_rfl
  · exact min_le_min (Int.toNat_le_toNat (gisCeilDiv_mono w P hr)) le_rfl

lemma gisArea_mono (h w P : Nat) {r1 r2 : ℚ} (hr : r1 ≤ r2) :
    gisArea h w P r1 ≤ gisArea h w P r2 :=
  Nat.mul_le_mul (gisPatchify_mono h w P _ _ hr).1 (gisPatchify_mono h w P _ _ hr).2

lemma gisArea_le_max (h w P : Nat) (r : ℚ) :
    gisArea h w P r ≤ gisMaxPy h P * gisMaxPy w P :=
  Nat.mul_le_mul (min_le_right _ _) (min_le_right _ _)

lemma gisCeil_one_ge (h P : Nat) (hP : 0 < P) (hh : 0 < h) :
    (gisMaxPy h P : ℤ) ≤ ⌈(h : ℚ) * 1 / (P : ℚ)⌉ := by
  have hPc : (0 : ℚ) < (P : ℚ) := by exact_mod_cast hP
  have hhc : (0 : ℚ) < (h : ℚ) := by exact_mod_cast hh
  rw [mul_one]
  have hge1 : (1 : ℤ) ≤ ⌈(h : ℚ) / (P : ℚ)⌉ :=
    Int.ceil_pos.mpr (div_pos hhc hPc)
  have hgediv : ((h / P : Nat) : ℤ) ≤ ⌈(h : ℚ) / (P : ℚ)⌉ := by
    have hc : ((h / P : Nat) : ℚ) ≤ (h : ℚ) / (P : ℚ) := Nat.cast_div_le
    calc ((h / P : Nat) : ℤ) = ⌈((h / P : Nat) : ℚ)⌉ := by
          rw [Int.ceil_natCast]
      _ ≤ ⌈(h : ℚ) / (P : ℚ)⌉ := Int.ceil_le_ceil hc
  unfold gisMaxPy
  rcases max_cases (h / P) 1 with ⟨hmax, _⟩ | ⟨hmax, _⟩
  · rw [hmax]
    exact hgediv
  · rw [hmax]
    exact hge1

lemma gisArea_one (h w P : Nat) (hP : 0 < P) (hh : 0 < h) (hw : 0 < w) :
    gisArea h w P 1 = gisMaxPy h P * gisMaxPy w P := by
  unfold gisArea gisPatchify
  have h1 : min (Int.toNat ⌈(h : ℚ) * 1 / (P : ℚ)⌉) (gisMaxPy h P) = gisMaxPy h P := by
    apply min_eq_right
    have := gisCeil_one_ge h P hP hh
    omega
  have h2 : min (Int.toNat ⌈(w : ℚ) * 1 / (P : ℚ)⌉) (gisMaxPy w P) = gisMaxPy w P := by
    apply min_eq_right
    have := gisCeil_one_ge w P hP hw
    omega
  rw [h1, h2]

/-- Invariant carried by the binary search: (py, px) is the grid at the
accepted scale lo, it fits in N, the grid at hi overflows N, and the
bracket is ordered. -/
def GisInv (h w P N : Nat) (lo hi : ℚ) (py px : Nat) : Prop :=
  (py, px) = gisPatchify h w P (gisMaxPy h P) (gisMaxPy w P) lo ∧
  py * px ≤ N ∧ N < gisArea h w P hi ∧ lo ≤ hi

lemma gisLoop_inv (h w P N : Nat) : ∀ (fuel : Nat) (lo hi : ℚ) (py px : Nat),
    GisInv h w P N lo hi py px →
    GisInv h w P N
      (gisLoop h w P N (gisMaxPy h P) (gisMaxPy w P) fuel lo hi py px).lo
      (gisLoop h w P N (gisMaxPy h P) (gisMaxPy w P) fuel lo hi py px).hi
      (gisLoop h w P N (gisMaxPy h P) (gisMaxPy w P) fuel lo hi py px).py
      (gisLoop h w P N (gisMaxPy h P) (gisMaxPy w P) fuel lo hi py px).px ∧
    lo ≤ (gisLoop h w P N (gisMaxPy h P) (gisMaxPy w P) fuel lo hi py px).lo ∧
    (gisLoop h w P N (gisMaxPy h P) (gisMaxPy w P) fuel lo hi py px).hi ≤ hi := by
  intro fuel
  induction fuel with
  | zero =>
      intro lo hi py px hinv
      exact ⟨hinv, le_rfl, le_rfl⟩
  | succ fuel ih =>
      intro lo hi py px hinv
      obtain ⟨hpy, hfit, hover, hord⟩ := hinv
      rw [gisLoop_succ]
      split_ifs with hc1 hc2 hc3
      · -- overflow at mid: shrink hi
        have hmidlo : lo ≤ (lo + hi) / 2 := by linarith
        have hmidhi : (lo + hi) / 2 ≤ hi := by linarith
        have := ih lo ((lo + hi) / 2) py px ⟨hpy, hfit, hc2, hmidlo⟩
        exact ⟨this.1, this.2.1, this.2.2.trans hmidhi⟩
      · -- exact hit: stop with the grid at mid
        have hmidlo : lo ≤ (lo + hi) / 2 := by linarith
        have hmidhi : (lo + hi) / 2 ≤ hi := by linarith
        exact ⟨⟨rfl, le_of_eq hc3, hover, hmidhi⟩, hmidlo, le_rfl⟩
      · -- fits at mid: advance lo and the grid
        have hmidlo : lo ≤ (lo + hi) / 2 := by linarith
        have hfit' : (gisPatchify h w P (gisMaxPy h P) (gisMaxPy w P)
            ((lo + hi) / 2)).1 *
            (gisPatchify h w P (gisMaxPy h P) (gisMaxPy w P) ((lo + hi) / 2)).2
            ≤ N := le_of_not_lt hc2
        have hord' : (lo + hi) / 2 ≤ hi := by linarith
        have := ih ((lo + hi) / 2) hi _ _ ⟨rfl, hfit', hover, hord'⟩
        exact ⟨this.1, hmidlo.trans this.2.1, this.2.2⟩
      · -- bracket narrower than eps: stop
        exact ⟨⟨hpy, hfit, hover, hord⟩, le_rfl, le_rfl⟩

lemma gisLoop_tight (h w P N : Nat) : ∀ (fuel : Nat) (lo hi : ℚ) (py px : Nat),
    hi - lo < gisEps * 2 ^ fuel →
    (gisLoop h w P N (gisMaxPy h P) (gisMaxPy w P) fuel lo hi py px).hi -
      (gisLoop h w P N (gisMaxPy h P) (gisMaxPy w P) fuel lo hi py px).lo
        < gisEps ∨
    (gisLoop h w P N (gisMaxPy h P) (gisMaxPy w P) fuel lo hi py px).py *
      (gisLoop h w P N (gisMaxPy h P) (gisMaxPy w P) fuel lo hi py px).px = N := by
  intro fuel
  induction fuel with
  | zero =>
      intro lo hi py px hlt
      left
      simpa using hlt
  | succ fuel ih =>
      intro lo hi py px hlt
      rw [gisLoop_succ]
      split_ifs with hc1 hc2 hc3
      · apply ih
        rw [pow_succ] at hlt
        linarith
      · right
        exact hc3
      · apply ih
        rw [pow_succ] at hlt
        linarith
      · left
        exact lt_of_not_le hc1

lemma gis_ok_ex (h w P N : Nat) (hP : 0 < P) (hh : 0 < h) (hw : 0 < w)
    (H W : Nat) (hok : getImageSizeForSeq h w P N = Except.ok (H, W)) :
    ∃ gy gx : Nat, H = gy * P ∧ W = gx * P ∧ gy * gx ≤ N ∧
      ∃ lo hi : ℚ, (hi - lo < gisEps ∨ gy * gx = N) ∧
        ∀ r : ℚ, (r ≤ lo ∨ hi ≤ r) → gisArea h w P r ≤ N →
          gisArea h w P r ≤ gy * gx := by
  unfold getImageSizeForSeq at hok
  by_cases hearly : gisMaxPy h P * gisMaxPy w P ≤ N
  · rw [if_pos hearly] at hok
    obtain ⟨hH, hW⟩ : gisMaxPy h P * P = H ∧ gisMaxPy w P * P = W := by
      cases hok
      exact ⟨rfl, rfl⟩
    refine ⟨gisMaxPy h P, gisMaxPy w P, hH.symm, hW.symm, hearly, 1, 1,
      Or.inl (by norm_num [gisEps]), ?_⟩
    intro r _ _
    exact gisArea_le_max h w P r
  · rw [if_neg hearly] at hok
    by_cases herr : N < (gisPatchify h w P (gisMaxPy h P) (gisMaxPy w P)
        gisEps).1 * (gisPatchify h w P (gisMaxPy h P) (gisMaxPy w P) gisEps).2
    · rw [if_pos herr] at hok
      exact absurd hok (by simp)
    · rw [if_neg herr] at hok
      have hover1 : N < gisArea h w P 1 := by
        rw [gisArea_one h w P hP hh hw]
        exact lt_of_not_le hearly
      have hinv0 : GisInv h w P N gisEps 1
          (gisPatchify h w P (gisMaxPy h P) (gisMaxPy w P) gisEps).1
          (gisPatchify h w P (gisMaxPy h P) (gisMaxPy w P) gisEps).2 :=
        ⟨rfl, le_of_not_lt herr, hover1, by norm_num [gisEps]⟩
      have hinv := gisLoop_inv h w P N 64 gisEps 1 _ _ hinv0
      have htight := gisLoop_tight h w P N 64 gisEps 1
        (gisPatchify h w P (gisMaxPy h P) (gisMaxPy w P) gisEps).1
        (gisPatchify h w P (gisMaxPy h P) (gisMaxPy w P) gisEps).2
        (by norm_num [gisEps])
      obtain ⟨⟨hpy, hfit, hover, hord⟩, _, _⟩ := hinv
      obtain ⟨hH, hW⟩ :
          (gisLoop h w P N (gisMaxPy h P) (gisMaxPy w P) 64 gisEps 1
            (gisPatchify h w P (gisMaxPy h P) (gisMaxPy w P) gisEps).1
            (gisPatchify h w P (gisMaxPy h P) (gisMaxPy w P) gisEps).2).py * P
            = H ∧
          (gisLoop h w P N (gisMaxPy h P) (gisMaxPy w P) 64 gisEps 1
            (gisPatchify h w P (gisMaxPy h P) (gisMaxPy w P) gisEps).1
            (gisPatchify h w P (gisMaxPy h P) (gisMaxPy w P) gisEps).2).px * P
            = W := by
        cases hok
        exact ⟨rfl, rfl⟩
      refine ⟨_, _, hH.symm, hW.symm, hfit, _, _, htight, ?_⟩
      intro r hr hrle
      rcases hr with hr | hr
      · have hmono := gisArea_mono h w P hr
        have : gisArea h w P
            (gisLoop h w P N (gisMaxPy h P) (gisMaxPy w P) 64 gisEps 1
              (gisPatchify h w P (gisMaxPy h P) (gisMaxPy w P) gisEps).1
              (gisPatchify h w P (gisMaxPy h P) (gisMaxPy w P) gisEps).2).lo =
            (gisLoop h w P N (gisMaxPy h P) (gisMaxPy w P) 64 gisEps 1
              (gisPatchify h w P (gisMaxPy h P) (gisMaxPy w P) gisEps).1
              (gisPatchify h w P (gisMaxPy h P) (gisMaxPy w P) gisEps).2).py *
            (gisLoop h w P N (gisMaxPy h P) (gisMaxPy w P) 64 gisEps 1
              (gisPatchify h w P (gisMaxPy h P) (gisMaxPy w P) gisEps).1
              (gisPatchify h w P (gisMaxPy h P) (gisMaxPy w P) gisEps).2).px := by
          unfold gisArea
          rw [← hpy]
        omega
      · have hmono := gisArea_mono h w P hr
        omega

lemma gis_error_of_minimal (h w P N : Nat)
    (hmin : N < gisArea h w P gisEps) :
    ∃ e, getImageSizeForSeq h w P N = Except.error e := by
  unfold getImageSizeForSeq
  have hnotearly : ¬ (gisMaxPy h P * gisMaxPy w P ≤ N) := by
    have := gisArea_le_max h w P gisEps
    omega
  have hmin' : N < (gisPatchify h w P (gisMaxPy h P) (gisMaxPy w P) gisEps).1 *
      (gisPatchify h w P (gisMaxPy h P) (gisMaxPy w P) gisEps).2 := hmin
  rw [if_neg hnotearly, if_pos hmin']
  exact ⟨_, rfl⟩

lemma gis_eval_1600 :
    getImageSizeForSeq 1600 1600 16 1024 = Except.ok (512, 512) := by
  have hmax : gisMaxPy 1600 16 = 100 := by norm_num [gisMaxPy]
  unfold getImageSizeForSeq
  rw [hmax, if_neg (by norm_num), gis_patch_1600_eps]
  rw [if_neg (by norm_num)]
  rw [gis_loop_1600]
  rfl

/-- Claim C3: whenever get_image_size_for_seq succeeds, the returned
dimensions are multiples of P, the patch grid fits in N, and the grid is
maximal over the searched scale range (every scale outside the final
sub-eps bracket that fits in N yields a grid no larger; the bracket is
narrower than eps unless the grid hits N exactly).  It errors when even
the minimal scale eps overflows N.  The two concrete cases of the spec
evaluate as stated. -/
theorem claim_C3_resolution_selection (h w P N : Nat)
    (hP : 0 < P) (hh : 0 < h) (hw : 0 < w) :
    (∀ H W : Nat, getImageSizeForSeq h w P N = Except.ok (H, W) →
      P ∣ H ∧ P ∣ W ∧ (H / P) * (W / P) ≤ N ∧
      ∃ lo hi : ℚ, (hi - lo < gisEps ∨ (H / P) * (W / P) = N) ∧
        ∀ r : ℚ, (r ≤ lo ∨ hi ≤ r) → gisArea h w P r ≤ N →
          gisArea h w P r ≤ (H / P) * (W / P)) ∧
    (N < gisArea h w P gisEps →
      ∃ e, getImageSizeForSeq h w P N = Except.error e) ∧
    getImageSizeForSeq 1600 1600 16 1024 = Except.ok (512, 512) ∧
    getImageSizeForSeq 16 16 16 1024 = Except.ok (16, 16) := by
  refine ⟨?_, gis_error_of_minimal h w P N, gis_eval_1600, gis_eval_16⟩
  intro H W hok
  obtain ⟨gy, gx, hH, hW, hfit, lo, hi, hbr, hmax⟩ :=
    gis_ok_ex h w P N hP hh hw H W hok
  have hHP : H / P = gy := by
    rw [hH]
    exact Nat.mul_div_cancel gy hP
  have hWP : W / P = gx := by
    rw [hW]
    exact Nat.mul_div_cancel gx hP
  refine ⟨⟨gy, by rw [hH, Nat.mul_comm]⟩, ⟨gx, by rw [hW, Nat.mul_comm]⟩, ?_, ?_⟩
  · rw [hHP, hWP]
    exact hfit
  · rw [hHP, hWP]
    exact ⟨lo, hi, hbr, hmax⟩

/-! ## JTP3 patchify buffers (put_srgb_patch composed with preprocess_jtp3)

preprocess_jtp3 zero-initializes three max_seqlen buffers and
put_srgb_patch writes the first (H/P)·(W/P) slots: the flattened meshgrid
coordinates are row-major, so slot k holds (k / (W/P), k mod (W/P)), and
patch_valid[:n] is set True.  Only the coordinate and validity buffers
matter for the claim; pixel contents are not modelled. -/

def patchGridCoords (gh gw : Nat) : List (Nat × Nat) :=
  (List.range (gh * gw)).map (fun k => (k / gw, k % gw))

/-- The validity buffer after put_srgb_patch: zeros, then the n-prefix True. -/
def putPatchValid (n maxSeq : Nat) : List Bool :=
  List.replicate n true ++ List.replicate (maxSeq - n) false

/-- The coordinate buffer after put_srgb_patch: grid prefix, zero tail. -/
def putPatchCoords (gh gw maxSeq : Nat) : List (Nat × Nat) :=
  patchGridCoords gh gw ++ List.replicate (maxSeq - gh * gw) (0, 0)

lemma patchGridCoords_getElem (gh gw k : Nat) (hk : k < gh * gw) :
    (patchGridCoords gh gw)[k]? = some (k / gw, k % gw) := by
  unfold patchGridCoords
  rw [List.getElem?_map]
  simp [hk]

lemma patchGridCoords_length (gh gw : Nat) :
    (patchGridCoords gh gw).length = gh * gw := by
  simp [patchGridCoords]

/-- Claim C4: for selected dimensions H by W coming out of the resolution
selection with patch size 16 and budget 1024, the validity mask has exactly
(H/16)(W/16) valid entries, the buffers have the full capacity length,
coordinates of two distinct valid slots differ, and every trailing slot
stays invalid. -/
theorem claim_C4_patchify_count_unique_trailing (h w H W : Nat)
    (hh : 0 < h) (hw : 0 < w)
    (hsel : getImageSizeForSeq h w 16 1024 = Except.ok (H, W)) :
    ((putPatchValid ((H / 16) * (W / 16)) 1024).count true
        = (H / 16) * (W / 16)) ∧
    ((putPatchValid ((H / 16) * (W / 16)) 1024).length = 1024) ∧
    (∀ i j : Nat, i < (H / 16) * (W / 16) → j < (H / 16) * (W / 16) → i ≠ j →
        (putPatchCoords (H / 16) (W / 16) 1024)[i]? ≠
          (putPatchCoords (H / 16) (W / 16) 1024)[j]?) ∧
    (∀ k : Nat, (H / 16) * (W / 16) ≤ k → k < 1024 →
        (putPatchValid ((H / 16) * (W / 16)) 1024)[k]? = some false) := by
  obtain ⟨gy, gx, hH, hW, hfit, -⟩ :=
    gis_ok_ex h w 16 1024 (by norm_num) hh hw H W hsel
  have hHP : H / 16 = gy := by
    rw [hH]
    exact Nat.mul_div_cancel gy (by norm_num)
  have hWP : W / 16 = gx := by
    rw [hW]
    exact Nat.mul_div_cancel gx (by norm_num)
  have hn : (H / 16) * (W / 16) ≤ 1024 := by
    rw [hHP, hWP]
    exact hfit
  refine ⟨?_, ?_, ?_, ?_⟩
  · simp [putPatchValid, List.count_append, List.count_replicate]
  · simp [putPatchValid]
    omega
  · intro i j hi hj hne
    have hgw : 0 < W / 16 := by
      rcases Nat.eq_zero_or_pos (W / 16) with h0 | h0
      · rw [h0, Nat.mul_zero] at hi
        exact absurd hi (Nat.not_lt_zero i)
      · exact h0
    have hci : (putPatchCoords (H / 16) (W / 16) 1024)[i]?
        = some (i / (W / 16), i % (W / 16)) := by
      unfold putPatchCoords
      rw [List.getElem?_append_left (by rw [patchGridCoords_length]; exact hi)]
      exact patchGridCoords_getElem _ _ i hi
    have hcj : (putPatchCoords (H / 16) (W / 16) 1024)[j]?
        = some (j / (W / 16), j % (W / 16)) := by
      unfold putPatchCoords
      rw [List.getElem?_append_left (by rw [patchGridCoords_length]; exact hj)]
      exact patchGridCoords_getElem _ _ j hj
    rw [hci, hcj]
    intro hcontra
    have h1 : i / (W / 16) = j / (W / 16) ∧ i % (W / 16) = j % (W / 16) := by
      have := Option.some_inj.mp hcontra
      exact ⟨congrArg Prod.fst this, congrArg Prod.snd this⟩
    have hdm1 := Nat.div_add_mod i (W / 16)
    have hdm2 := Nat.div_add_mod j (W / 16)
    rw [h1.1, h1.2] at hdm1
    exact hne (hdm1.symm.trans hdm2)
  · intro k hk1 hk2
    unfold putPatchValid
    rw [List.getElem?_append_right (by simpa using hk1)]
    simp only [List.length_replicate]
    rw [List.getElem?_replicate]
    rw [if_pos (by omega)]

/-- Claim C4 witness: a 32 by 32 image selects 32 by 32 and yields four
valid patches. -/
theorem claim_C4_patchify_witness :
    ((putPatchValid ((32 / 16) * (32 / 16)) 1024).count true
        = (32 / 16) * (32 / 16)) ∧
    ((putPatchValid ((32 / 16) * (32 / 16)) 1024).length = 1024) ∧
    (∀ i j : Nat, i < (32 / 16) * (32 / 16) → j < (32 / 16) * (32 / 16) →
        i ≠ j →
        (putPatchCoords (32 / 16) (32 / 16) 1024)[i]? ≠
          (putPatchCoords (32 / 16) (32 / 16) 1024)[j]?) ∧
    (∀ k : Nat, (32 / 16) * (32 / 16) ≤ k → k < 1024 →
        (putPatchValid ((32 / 16) * (32 / 16)) 1024)[k]? = some false) :=
  claim_C4_patchify_count_unique_trailing 32 32 32 32
    (by decide) (by decide) rfl

/-- Claim C3 witness: the theorem instantiated at the 1600 by 1600 case. -/
theorem claim_C3_resolution_selection_witness :
    (∀ H W : Nat, getImageSizeForSeq 1600 1600 16 1024 = Except.ok (H, W) →
      16 ∣ H ∧ 16 ∣ W ∧ (H / 16) * (W / 16) ≤ 1024 ∧
      ∃ lo hi : ℚ, (hi - lo < gisEps ∨ (H / 16) * (W / 16) = 1024) ∧
        ∀ r : ℚ, (r ≤ lo ∨ hi ≤ r) → gisArea 1600 1600 16 r ≤ 1024 →
          gisArea 1600 1600 16 r ≤ (H / 16) * (W / 16)) ∧
    (1024 < gisArea 1600 1600 16 gisEps →
      ∃ e, getImageSizeForSeq 1600 1600 16 1024 = Except.error e) ∧
    getImageSizeForSeq 1600 1600 16 1024 = Except.ok (512, 512) ∧
    getImageSizeForSeq 16 16 16 1024 = Except.ok (16, 16) :=
  claim_C3_resolution_selection 1600 1600 16 1024
    (by decide) (by decide) (by decide)

/-! ## JTP2 Fit transform (transformations.py / jtp2_inference.py)

Only the geometry of Fit.forward is modelled (the effective second
definition in transformations.py, identical to the one in
jtp2_inference.py): sizes are PIL (width, height), bounds are
(hbound, wbound), scales are exact rationals, and the float round is the
Python round-half-to-even.  get_transform builds Fit((384, 384)) with the
default grow=True and pad=None, so only the no-padding path is modelled. -/

def pyRound (q : ℚ) : Int :=
  if q - ⌊q⌋ < 1 / 2 then ⌊q⌋
  else if 1 / 2 < q - ⌊q⌋ then ⌊q⌋ + 1
  else if ⌊q⌋ % 2 = 0 then ⌊q⌋ else ⌊q⌋ + 1

/-- Fit configuration: hbound, wbound = self.bounds, plus the grow flag
(pad is None on the pipeline path and not modelled). -/
structure FitCfg where
  hbound : Nat
  wbound : Nat
  grow : Bool
  deriving Repr, DecidableEq

/-- The common scale factor of Fit.forward, for an image of PIL size
(w, h): min of hscale and wscale, each clamped to 1 when grow is off. -/
def fitScale (cfg : FitCfg) (w h : Nat) : ℚ :=
  min (if cfg.grow then (cfg.hbound : ℚ) / (h : ℚ)
       else min ((cfg.hbound : ℚ) / (h : ℚ)) 1)
      (if cfg.grow then (cfg.wbound : ℚ) / (w : ℚ)
       else min ((cfg.wbound : ℚ) / (w : ℚ)) 1)

/-- Fit.forward on the image size, result again in PIL (width, height). -/
def fitForward (cfg : FitCfg) (w h : Nat) : Nat × Nat :=
  if fitScale cfg w h = 1 then (w, h)
  else
    (min (pyRound ((w : ℚ) * fitScale cfg w h)).toNat cfg.wbound,
     min (pyRound ((h : ℚ) * fitScale cfg w h)).toNat cfg.hbound)

/-- The Fit instance built by get_transform (and get_jtp2_transform): only
the bounds are passed, grow keeps its default True. -/
def getTransformFit : FitCfg := { hbound := 384, wbound := 384, grow := true }

lemma pyRound_intCast (z : Int) : pyRound (z : ℚ) = z := by
  unfold pyRound
  rw [Int.floor_intCast]
  rw [if_pos (by norm_num)]

/-- Claim C8 counterexample: the pipeline transform has grow=True by
default, and under it a 100 by 100 image is enlarged to 384 by 384, so the
default resize is not shrink-only. -/
theorem claim_C8_counterexample :
    getTransformFit.grow = true ∧
    fitForward getTransformFit 100 100 = (384, 384) := by
  refine ⟨rfl, ?_⟩
  have hs : fitScale getTransformFit 100 100 = 96 / 25 := by
    unfold fitScale getTransformFit
    norm_num
  unfold fitForward
  rw [hs, if_neg (by norm_num)]
  have h384 : ((100 : Nat) : ℚ) * (96 / 25) = ((384 : Int) : ℚ) := by norm_num
  rw [h384, pyRound_intCast]
  rfl

/-- Claim C8 amended: the Fit geometry always lands within the 384 by 384
bounds, the resize is shrink-only exactly when grow is set to false
(images already inside the bounds are returned unchanged), and the
pipeline default leaves grow=True, so smaller images are enlarged by
default (see the counterexample). -/
theorem claim_C8_fit_bounds_grow_default (cfg : FitCfg) (w h : Nat)
    (hw : 0 < w) (hh : 0 < h)
    (hb1 : cfg.hbound = 384) (hb2 : cfg.wbound = 384) :
    ((fitForward cfg w h).1 ≤ 384 ∧ (fitForward cfg w h).2 ≤ 384) ∧
    (cfg.grow = false → w ≤ 384 → h ≤ 384 → fitForward cfg w h = (w, h)) ∧
    getTransformFit.grow = true := by
  have hwc : (0 : ℚ) < (w : ℚ) := by exact_mod_cast hw
  have hhc : (0 : ℚ) < (h : ℚ) := by exact_mod_cast hh
  refine ⟨?_, ?_, rfl⟩
  · unfold fitForward
    by_cases hs : fitScale cfg w h = 1
    · rw [if_pos hs]
      unfold fitScale at hs
      have h1 : (1 : ℚ) ≤ (if cfg.grow then (cfg.hbound : ℚ) / (h : ℚ)
          else min ((cfg.hbound : ℚ) / (h : ℚ)) 1) := by
        have := min_le_left
          (if cfg.grow then (cfg.hbound : ℚ) / (h : ℚ)
           else min ((cfg.hbound : ℚ) / (h : ℚ)) 1)
          (if cfg.grow then (cfg.wbound : ℚ) / (w : ℚ)
           else min ((cfg.wbound : ℚ) / (w : ℚ)) 1)
        rw [hs] at this
        exact this
      have h2 : (1 : ℚ) ≤ (if cfg.grow then (cfg.wbound : ℚ) / (w : ℚ)
          else min ((cfg.wbound : ℚ) / (w : ℚ)) 1) := by
        have := min_le_right
          (if cfg.grow then (cfg.hbound : ℚ) / (h : ℚ)
           else min ((cfg.hbound : ℚ) / (h : ℚ)) 1)
          (if cfg.grow then (cfg.wbound : ℚ) / (w : ℚ)
           else min ((cfg.wbound : ℚ) / (w : ℚ)) 1)
        rw [hs] at this
        exact this
      have hdivh : (1 : ℚ) ≤ (cfg.hbound : ℚ) / (h : ℚ) := by
        split_ifs at h1 with hgrow
        · exact h1
        · exact (le_min_iff.mp h1).1
      have hdivw : (1 : ℚ) ≤ (cfg.wbound : ℚ) / (w : ℚ) := by
        split_ifs at h2 with hgrow
        · exact h2
        · exact (le_min_iff.mp h2).1
      rw [one_le_div hhc] at hdivh
      rw [one_le_div hwc] at hdivw
      rw [hb1] at hdivh
      rw [hb2] at hdivw
      constructor
      · exact_mod_cast hdivw
      · exact_mod_cast hdivh
    · rw [if_neg hs]
      rw [hb1, hb2]
      exact ⟨min_le_right _ _, min_le_right _ _⟩
  · intro hg hwle hhle
    have hs : fitScale cfg w h = 1 := by
      have hgne : ¬ (cfg.grow = true) := by
        rw [hg]
        simp
      unfold fitScale
      rw [if_neg hgne, if_neg hgne]
      have e1 : min ((cfg.hbound : ℚ) / (h : ℚ)) 1 = 1 := by
        apply min_eq_right
        rw [one_le_div hhc, hb1]
        exact_mod_cast hhle
      have e2 : min ((cfg.wbound : ℚ) / (w : ℚ)) 1 = 1 := by
        apply min_eq_right
        rw [one_le_div hwc, hb2]
        exact_mod_cast hwle
      rw [e1, e2]
      exact min_self 1
    unfold fitForward
    rw [if_pos hs]

/-- Claim C8 amended witness: with grow=false a 300 by 300 image is left
untouched and within bounds. -/
theorem claim_C8_fit_bounds_witness :
    ((fitForward ⟨384, 384, false⟩ 300 300).1 ≤ 384 ∧
      (fitForward ⟨384, 384, false⟩ 300 300).2 ≤ 384) ∧
    ((⟨384, 384, false⟩ : FitCfg).grow = false → 300 ≤ 384 → 300 ≤ 384 →
      fitForward ⟨384, 384, false⟩ 300 300 = (300, 300)) ∧
    getTransformFit.grow = true :=
  claim_C8_fit_bounds_grow_default ⟨384, 384, false⟩ 300 300
    (by decide) (by decide) rfl rfl

/-! ## Real sigmoid and the Hydra output stage (jtp3_inference.py)

Tensor entries are modelled as reals.  sigmoid and silu are the torch
functions; the out_proj BatchLinear weight has shape
[n_classes, attn_dim, output_dim * 2] and its forward is the batched
matmul; out_act is SwiGLU, which chunks the last dimension in two halves
f and g and returns silu(f) * g. -/

noncomputable def sigmoidReal (x : ℝ) : ℝ := 1 / (1 + Real.exp (-x))

noncomputable def siluReal (x : ℝ) : ℝ := x * sigmoidReal x

/-- BatchLinear.forward: slot (t, o) of matmul(x.unsqueeze(-2), W).squeeze. -/
noncomputable def batchLinearOut (nT inD od2 : Nat)
    (Wt : Fin nT → Fin inD → Fin od2 → ℝ) (x : Fin nT → Fin inD → ℝ) :
    Fin nT → Fin od2 → ℝ :=
  fun t o => ∑ i, x t i * Wt t i o

/-- The same projection for a single tag, to state that the batched matmul
is exactly one independent per-tag projection per tag. -/
noncomputable def singleLinearOut (inD od2 : Nat)
    (wts : Fin inD → Fin od2 → ℝ) (v : Fin inD → ℝ) : Fin od2 → ℝ :=
  fun o => ∑ i, v i * wts i o

/-- SwiGLU.forward on a vector of even length: chunk in two halves, then
silu of the first half times the second half. -/
noncomputable def swigluChunk (m : Nat) (y : Fin (m * 2) → ℝ) : Fin m → ℝ :=
  fun j => siluReal (y ⟨j.1, by omega⟩) * y ⟨m + j.1, by omega⟩

/-- HydraPool._forward_out: out_proj then out_act. -/
noncomputable def hydraForwardOut (nT inD outD : Nat)
    (Wt : Fin nT → Fin inD → Fin (outD * 2) → ℝ)
    (x : Fin nT → Fin inD → ℝ) : Fin nT → Fin outD → ℝ :=
  fun t => swigluChunk outD (batchLinearOut nT inD (outD * 2) Wt x t)

/-- Modelled from the spec sentence of C5: the two projected values per tag
combined via sigmoid(a) * sigmoid(b), for comparison with the code. -/
noncomputable def specSigmoidPairOut (nT inD outD : Nat)
    (Wt : Fin nT → Fin inD → Fin (outD * 2) → ℝ)
    (x : Fin nT → Fin inD → ℝ) : Fin nT → Fin outD → ℝ :=
  fun t j =>
    sigmoidReal (batchLinearOut nT inD (outD * 2) Wt x t ⟨j.1, by omega⟩) *
      sigmoidReal (batchLinearOut nT inD (outD * 2) Wt x t ⟨outD + j.1, by omega⟩)

lemma sigmoidReal_pos (x : ℝ) : 0 < sigmoidReal x := by
  unfold sigmoidReal
  positivity

/-- Claim C5 counterexample: with one tag, one input feature equal to 1 and
weights (0, 1), the code computes silu(0) * 1 = 0 while the sigmoid-pair
combination of the spec gives sigmoid(0) * sigmoid(1), which is positive;
the two output stages differ. -/
theorem claim_C5_counterexample :
    hydraForwardOut 1 1 1 (fun _ _ o => if o.1 = 0 then 0 else 1)
        (fun _ _ => 1) 0 0 = 0 ∧
    hydraForwardOut 1 1 1 (fun _ _ o => if o.1 = 0 then 0 else 1)
        (fun _ _ => 1) 0 0 ≠
      specSigmoidPairOut 1 1 1 (fun _ _ o => if o.1 = 0 then 0 else 1)
        (fun _ _ => 1) 0 0 := by
  have hL : hydraForwardOut 1 1 1 (fun _ _ o => if o.1 = 0 then 0 else 1)
      (fun _ _ => 1) 0 0 = 0 := by
    unfold hydraForwardOut swigluChunk batchLinearOut siluReal
    simp
  have hR : 0 < specSigmoidPairOut 1 1 1 (fun _ _ o => if o.1 = 0 then 0 else 1)
      (fun _ _ => 1) 0 0 := by
    unfold specSigmoidPairOut
    exact mul_pos (sigmoidReal_pos _) (sigmoidReal_pos _)
  refine ⟨hL, ?_⟩
  intro hcontra
  rw [hL] at hcontra
  rw [← hcontra] at hR
  exact lt_irrefl 0 hR

/-- Claim C5 amended: the output stage uses the batched weight of shape
[num_tags, in, out*2]; the batched matmul computes exactly one independent
projection per tag (no cross-tag mixing); and the two projected halves a, b
are combined as SwiGLU does, silu(a) * b with silu(v) = v * sigmoid(v) —
not sigmoid(a) * sigmoid(b). -/
theorem claim_C5_swiglu_batched_projection (nT inD outD : Nat)
    (Wt : Fin nT → Fin inD → Fin (outD * 2) → ℝ)
    (x : Fin nT → Fin inD → ℝ) (t : Fin nT) (j : Fin outD) :
    (hydraForwardOut nT inD outD Wt x t j =
      siluReal (batchLinearOut nT inD (outD * 2) Wt x t ⟨j.1, by omega⟩) *
        batchLinearOut nT inD (outD * 2) Wt x t ⟨outD + j.1, by omega⟩) ∧
    (batchLinearOut nT inD (outD * 2) Wt x t =
      singleLinearOut inD (outD * 2) (Wt t) (x t)) ∧
    (siluReal = fun v => v * sigmoidReal v) := by
  exact ⟨rfl, rfl, rfl⟩

/-! ## JTP2 end-to-end probabilities (run_inference_jtp2 and the worker)

For the JTP_PILOT head, run_inference_jtp2 applies sigmoid to the logits
(the AnalysisWorker in classifier_manager.py does the same), and the
postprocessing thresholds and sorts the probabilities. -/

noncomputable def jtp2PilotProbs (logits : List ℝ) : List ℝ :=
  logits.map sigmoidReal

noncomputable def jtp2AnalysisResults (tags : List String) (logits : List ℝ)
    (T : ℝ) : List (String × ℝ) :=
  postprocessResults tags (jtp2PilotProbs logits) T

lemma exp_two_eq : Real.exp 2 = Real.exp 1 * Real.exp 1 := by
  rw [← Real.exp_add]
  norm_num

lemma exp_two_gt : (22 / 3 : ℝ) < Real.exp 2 := by
  have h := Real.exp_one_gt_d9
  rw [exp_two_eq]
  nlinarith [h]

lemma exp_two_lt : Real.exp 2 < (739 / 100 : ℝ) := by
  have h := Real.exp_one_lt_d9
  have h0 := Real.exp_pos 1
  rw [exp_two_eq]
  nlinarith [h, h0]

lemma sigmoid_zero_eq : sigmoidReal 0 = 1 / 2 := by
  unfold sigmoidReal
  rw [neg_zero, Real.exp_zero]
  norm_num

lemma sigmoid_two_gt : (88 / 100 : ℝ) < sigmoidReal 2 := by
  unfold sigmoidReal
  have h3 : (0 : ℝ) < Real.exp 2 := Real.exp_pos 2
  have h2 : Real.exp (-2) = (Real.exp 2)⁻¹ := by
    rw [← Real.exp_neg]
  have hinv : (Real.exp 2)⁻¹ < 3 / 22 := by
    rw [inv_lt_iff_one_lt_mul₀ h3]
    nlinarith [exp_two_gt]
  rw [h2, div_lt_div_iff₀ (by norm_num) (by positivity)]
  nlinarith [hinv, h3]

lemma sigmoid_two_lt : sigmoidReal 2 < (89 / 100 : ℝ) := by
  unfold sigmoidReal
  have h3 : (0 : ℝ) < Real.exp 2 := Real.exp_pos 2
  have h2 : Real.exp (-2) = (Real.exp 2)⁻¹ := by
    rw [← Real.exp_neg]
  have hinv : (100 / 739 : ℝ) < (Real.exp 2)⁻¹ := by
    rw [inv_eq_one_div, lt_div_iff₀ h3]
    nlinarith [exp_two_lt]
  rw [h2, div_lt_div_iff₀ (by positivity) (by norm_num)]
  nlinarith [hinv, h3]

lemma sigmoid_neg_two_lt : sigmoidReal (-2) < 3 / 10 := by
  unfold sigmoidReal
  rw [neg_neg]
  have h3 : (0 : ℝ) < Real.exp 2 := Real.exp_pos 2
  rw [div_lt_div_iff₀ (by positivity) (by norm_num)]
  nlinarith [exp_two_gt]

lemma sigmoid_two_gt_threshold : (3 / 10 : ℝ) < sigmoidReal 2 := by
  nlinarith [sigmoid_two_gt]

lemma sigmoid_zero_gt_threshold : (3 / 10 : ℝ) < sigmoidReal 0 := by
  rw [sigmoid_zero_eq]
  norm_num

lemma sigmoid_zero_lt_two : sigmoidReal 0 < sigmoidReal 2 := by
  rw [sigmoid_zero_eq]
  nlinarith [sigmoid_two_gt]

lemma jtp2_candidates_concrete :
    analysisCandidates [("red"), ("blue"), ("green")]
        (jtp2PilotProbs [2, -2, 0]) (3 / 10) =
      [(("red"), sigmoidReal 2), (("green"), sigmoidReal 0)] := by
  have hm2 : ¬ ((3 / 10 : ℝ) < sigmoidReal (-2)) :=
    not_lt.mpr sigmoid_neg_two_lt.le
  simp [analysisCandidates, jtp2PilotProbs, List.enum, List.enumFrom,
    sigmoid_two_gt_threshold, sigmoid_zero_gt_threshold, hm2]

lemma jtp2_results_concrete :
    jtp2AnalysisResults [("red"), ("blue"), ("green")] [2, -2, 0] (3 / 10) =
      [(("red"), sigmoidReal 2), (("green"), sigmoidReal 0)] := by
  unfold jtp2AnalysisResults postprocessResults postprocessIndexed
  rw [jtp2_candidates_concrete]
  have hrel : keyLex (fun p : Nat × (String × ℝ) => OrderDual.toDual p.2.2)
      Prod.fst (0, (("red"), sigmoidReal 2)) (1, (("green"), sigmoidReal 0)) :=
    Or.inl (OrderDual.toDual_lt_toDual.mpr sigmoid_zero_lt_two)
  rw [show ([(("red"), sigmoidReal 2), (("green"), sigmoidReal 0)]
      : List (String × ℝ)).enum =
      [(0, (("red"), sigmoidReal 2)), (1, (("green"), sigmoidReal 0))] from rfl]
  rw [List.insertionSort, List.insertionSort, List.insertionSort,
    List.orderedInsert_nil]
  simp only [List.orderedInsert]
  rw [if_pos hrel]
  rfl

/-- Claim C6 counterexample: on the 3-tag vocabulary with mock logits
(2, -2, 0) and threshold 0.3, the JTP2 pipeline returns two pairs — green
scores sigmoid(0) = 0.5, which passes the 0.3 threshold — so the result is
not the single pair (red, 0.88). -/
theorem claim_C6_counterexample :
    jtp2AnalysisResults [("red"), ("blue"), ("green")] [2, -2, 0] (3 / 10) =
      [(("red"), sigmoidReal 2), (("green"), sigmoidReal 0)] ∧
    sigmoidReal 0 = 1 / 2 ∧
    (jtp2AnalysisResults [("red"), ("blue"), ("green")] [2, -2, 0]
        (3 / 10)).length ≠ 1 := by
  refine ⟨jtp2_results_concrete, sigmoid_zero_eq, ?_⟩
  rw [jtp2_results_concrete]
  simp

/-- Claim C6 amended: the result is exactly (red, sigmoid 2) followed by
(green, 0.5), blue is filtered out, and sigmoid 2 is about 0.88 (strictly
between 0.88 and 0.89). -/
theorem claim_C6_amended_red_green :
    jtp2AnalysisResults [("red"), ("blue"), ("green")] [2, -2, 0] (3 / 10) =
      [(("red"), sigmoidReal 2), (("green"), 1 / 2)] ∧
    (88 / 100 : ℝ) < sigmoidReal 2 ∧ sigmoidReal 2 < (89 / 100 : ℝ) := by
  refine ⟨?_, sigmoid_two_gt, sigmoid_two_lt⟩
  rw [jtp2_results_concrete, sigmoid_zero_eq]

end TailTagger
